import Mathlib

/-!
Verification of the `local-knowledge-graph` repository: a shallow embedding of
its indexing/retrieval core (extractor, vector store, orchestrator) together
with theorems settling the specification claims.

Modelling conventions:
* Python dictionaries become association lists (`List (String × _)`) with the
  dict operations (insert-or-overwrite keeping position, delete, lookup)
  embedded explicitly; reachable dict states have `Nodup` keys.
* Python floats (similarity scores) become `ℚ`.
* Filesystem paths become segment lists (`List String`); `PurePath.parents`
  membership becomes strict segment-list prefixing.
* External collaborators (embedding provider, git clone, backend clients) are
  universally quantified function parameters.
-/

/-- A scored search hit as returned by `LocalVectorStore.search`
(`vector_store.py`): the stored payload fields plus a `score`. -/
structure Hit where
  repo_name : String
  path : String
  content : String
  score : ℚ
deriving DecidableEq

/-- One step of the grouping loop in `semantic_search_with_context`
(`knowledge_graph.py` lines 186-192): Python's
`repo_results[repo_name]['matching_files'].append(res)` on a dict keyed by
`repo_name`, modelled on an insertion-ordered association list. -/
def insertHit : List (String × List Hit) → Hit → List (String × List Hit)
  | [], res => [(res.repo_name, [res])]
  | (k, hs) :: rest, res =>
    if k = res.repo_name then (k, hs ++ [res]) :: rest
    else (k, hs) :: insertHit rest res

/-- The grouping loop `for res in results: ...` of
`semantic_search_with_context` (`knowledge_graph.py` lines 187-192). -/
def groupHits (results : List Hit) : List (String × List Hit) :=
  results.foldl insertHit []

/-- The hits of `results` whose `repo_name` equals `k`, in order. -/
def keyFilter (results : List Hit) (k : String) : List Hit :=
  results.filter (fun h => h.repo_name = k)

/-- Association-list lookup with propositional key equality (Python `d[k]` /
`k in d`). -/
def assocFind {α : Type} (m : List (String × α)) (k : String) : Option α :=
  match m with
  | [] => none
  | (k', v) :: rest => if k' = k then some v else assocFind rest k

/-- Sum of the scores of a list of hits (the accumulated `total_score` of
`semantic_search_with_context`). -/
def sumScores (hs : List Hit) : ℚ := (hs.map Hit.score).sum

/-- Comparator for `sorted(..., key=lambda x: x['score'], reverse=True)`:
descending by score. -/
def hitLE (a b : Hit) : Bool := decide (b.score ≤ a.score)

/-- `sorted(data['matching_files'], key=lambda x: x['score'], reverse=True)`
(`knowledge_graph.py` line 199). -/
def sortFilesDesc (hs : List Hit) : List Hit := hs.mergeSort hitLE

/-- Per-repository aggregate produced by `semantic_search_with_context`. -/
structure RepoResult where
  relevance_score : ℚ
  matching_files : List Hit
deriving DecidableEq

/-- Comparator for
`sorted(final_results.items(), key=lambda item: item[1]['relevance_score'], reverse=True)`
(`knowledge_graph.py` line 202). -/
def repoLE (a b : String × RepoResult) : Bool :=
  decide (b.2.relevance_score ≤ a.2.relevance_score)

/-- Return value of `semantic_search_with_context`; `results_by_repository`
keeps the (insertion-ordered) dict as an ordered list of entries. -/
structure ContextSearchResult where
  query : String
  total_results : Nat
  repositories_found : Nat
  results_by_repository : List (String × RepoResult)
deriving DecidableEq

/-- `LocalKnowledgeGraph.semantic_search_with_context`
(`knowledge_graph.py` lines 182-209).  `searchFn` is the delegated
`self.search` (which passes through to the vector store). -/
def semantic_search_with_context (searchFn : String → Nat → List Hit)
    (query : String) (limit : Nat) : ContextSearchResult :=
  let results := searchFn query (limit * 2)
  let repo_results := groupHits results
  let final_results := repo_results.map (fun p =>
    (p.1, { relevance_score := sumScores p.2 / (p.2.length : ℚ)
            matching_files := sortFilesDesc p.2 : RepoResult }))
  let sorted_repos := final_results.mergeSort repoLE
  { query := query
    total_results := results.length
    repositories_found := repo_results.length
    results_by_repository := sorted_repos.take limit }

lemma assocFind_insertHit (acc : List (String × List Hit)) (res : Hit)
    (k : String) :
    assocFind (insertHit acc res) k =
      if k = res.repo_name then some ((assocFind acc k).getD [] ++ [res])
      else assocFind acc k := by
  induction acc with
  | nil =>
    by_cases hk : k = res.repo_name
    · simp [insertHit, assocFind, hk]
    · simp [insertHit, assocFind, hk, Ne.symm hk]
  | cons p rest ih =>
    obtain ⟨k', hs⟩ := p
    by_cases hk' : k' = res.repo_name
    · subst hk'
      by_cases hk : res.repo_name = k
      · subst hk
        simp [insertHit, assocFind]
      · simp [insertHit, assocFind, hk, Ne.symm hk]
    · by_cases hk : k' = k
      · subst hk
        simp [insertHit, assocFind, hk', Ne.symm hk']
      · simp [insertHit, assocFind, hk, hk', ih]

lemma keyFilter_nil (k : String) : keyFilter [] k = [] := rfl

lemma keyFilter_cons (h : Hit) (t : List Hit) (k : String) :
    keyFilter (h :: t) k =
      if h.repo_name = k then h :: keyFilter t k else keyFilter t k := by
  by_cases hk : h.repo_name = k <;> simp [keyFilter, hk]

lemma assocFind_foldl_insertHit (l : List Hit) (acc : List (String × List Hit))
    (k : String) :
    assocFind (l.foldl insertHit acc) k =
      match assocFind acc k with
      | some hs => some (hs ++ keyFilter l k)
      | none => if keyFilter l k = [] then none else some (keyFilter l k) := by
  induction l generalizing acc with
  | nil =>
    cases hfind : assocFind acc k <;> simp [keyFilter, hfind]
  | cons h t ih =>
    rw [List.foldl_cons, ih, assocFind_insertHit, keyFilter_cons]
    by_cases hk : h.repo_name = k
    · subst hk
      cases hfind : assocFind acc h.repo_name <;> simp [hfind]
    · have hk' : ¬ k = h.repo_name := Ne.symm hk
      cases hfind : assocFind acc k <;> simp [hfind, hk, hk']

/-- Lookup characterisation of the grouping loop: a repository key maps to
exactly the raw hits with that `repo_name`, in order, and is present exactly
when that set of hits is nonempty. -/
lemma assocFind_groupHits (results : List Hit) (k : String) :
    assocFind (groupHits results) k =
      if keyFilter results k = [] then none else some (keyFilter results k) := by
  have h := assocFind_foldl_insertHit results [] k
  simpa [groupHits, assocFind] using h

lemma keys_insertHit (acc : List (String × List Hit)) (res : Hit) :
    (insertHit acc res).map Prod.fst =
      if res.repo_name ∈ acc.map Prod.fst then acc.map Prod.fst
      else acc.map Prod.fst ++ [res.repo_name] := by
  induction acc with
  | nil => simp [insertHit]
  | cons p rest ih =>
    obtain ⟨k', hs⟩ := p
    by_cases hk : k' = res.repo_name
    · subst hk
      simp [insertHit]
    · have hne : ¬ res.repo_name = k' := Ne.symm hk
      by_cases hmem : res.repo_name ∈ rest.map Prod.fst
      · simp [insertHit, hk, ih, hmem, hne]
      · simp [insertHit, hk, ih, hmem, hne]

lemma keys_nodup_insertHit (acc : List (String × List Hit)) (res : Hit)
    (hnd : (acc.map Prod.fst).Nodup) :
    ((insertHit acc res).map Prod.fst).Nodup := by
  rw [keys_insertHit]
  by_cases hmem : res.repo_name ∈ acc.map Prod.fst
  · simpa [hmem] using hnd
  · simpa [hmem, List.nodup_append] using hnd

lemma keys_nodup_foldl_insertHit (l : List Hit)
    (acc : List (String × List Hit)) (hnd : (acc.map Prod.fst).Nodup) :
    ((l.foldl insertHit acc).map Prod.fst).Nodup := by
  induction l generalizing acc with
  | nil => simpa using hnd
  | cons h t ih => exact ih _ (keys_nodup_insertHit acc h hnd)

lemma keys_nodup_groupHits (results : List Hit) :
    ((groupHits results).map Prod.fst).Nodup :=
  keys_nodup_foldl_insertHit results [] (by simp)

lemma assocFind_eq_some_of_mem {α : Type} {m : List (String × α)}
    {p : String × α} (hmem : p ∈ m) (hnd : (m.map Prod.fst).Nodup) :
    assocFind m p.1 = some p.2 := by
  induction m with
  | nil => cases hmem
  | cons q rest ih =>
    obtain ⟨k', v'⟩ := q
    rcases List.mem_cons.mp hmem with hq | hq
    · subst hq
      simp [assocFind]
    · have hk : ¬ k' = p.1 := by
        intro he
        have : p.1 ∈ rest.map Prod.fst := List.mem_map_of_mem Prod.fst hq
        rw [← he] at this
        exact (List.nodup_cons.mp hnd).1 this
      simpa [assocFind, hk] using ih hq (List.nodup_cons.mp hnd).2

/-- Every entry produced by the grouping loop holds exactly the raw hits with
its key, and every group is nonempty. -/
lemma mem_groupHits (results : List Hit) (p : String × List Hit)
    (hmem : p ∈ groupHits results) :
    p.2 = keyFilter results p.1 ∧ p.2 ≠ [] := by
  have hfind := assocFind_eq_some_of_mem hmem (keys_nodup_groupHits results)
  rw [assocFind_groupHits] at hfind
  by_cases hnil : keyFilter results p.1 = []
  · simp [hnil] at hfind
  · rw [if_neg hnil] at hfind
    refine ⟨by injection hfind with h; exact h.symm, ?_⟩
    intro hp
    injection hfind with h
    exact hnil (hp ▸ h)

lemma sortFilesDesc_perm (hs : List Hit) : (sortFilesDesc hs).Perm hs :=
  List.mergeSort_perm hs hitLE

lemma pairwise_sortFilesDesc (hs : List Hit) :
    List.Pairwise (fun a b => b.score ≤ a.score) (sortFilesDesc hs) := by
  have h := @List.sorted_mergeSort Hit hitLE
    (fun a b c h₁ h₂ => by
      simp only [hitLE, decide_eq_true_eq] at h₁ h₂ ⊢
      exact le_trans h₂ h₁)
    (fun a b => by
      simp only [hitLE, Bool.or_eq_true, decide_eq_true_eq]
      exact le_total b.score a.score)
    hs
  refine h.imp ?_
  intro a b hab
  simpa [hitLE] using hab

lemma pairwise_mergeSort_repoLE (l : List (String × RepoResult)) :
    List.Pairwise (fun a b => b.2.relevance_score ≤ a.2.relevance_score)
      (l.mergeSort repoLE) := by
  have h := @List.sorted_mergeSort (String × RepoResult) repoLE
    (fun a b c h₁ h₂ => by
      simp only [repoLE, decide_eq_true_eq] at h₁ h₂ ⊢
      exact le_trans h₂ h₁)
    (fun a b => by
      simp only [repoLE, Bool.or_eq_true, decide_eq_true_eq]
      exact le_total b.2.relevance_score a.2.relevance_score)
    l
  refine h.imp ?_
  intro a b hab
  simpa [repoLE] using hab

lemma mem_results_by_repository (searchFn : String → Nat → List Hit)
    (query : String) (limit : Nat) (p : String × RepoResult)
    (hp : p ∈ (semantic_search_with_context searchFn query limit).results_by_repository) :
    ∃ q ∈ groupHits (searchFn query (limit * 2)),
      p = (q.1, { relevance_score := sumScores q.2 / (q.2.length : ℚ)
                  matching_files := sortFilesDesc q.2 : RepoResult }) := by
  simp only [semantic_search_with_context] at hp
  have h1 := (List.take_sublist _ _).subset hp
  have h2 := (List.mergeSort_perm _ repoLE).mem_iff.mp h1
  obtain ⟨q, hq, hpq⟩ := List.mem_map.mp h2
  exact ⟨q, hq, hpq.symm⟩

/-- C1: `semantic_search_with_context` requests `2*limit` raw hits from the
vector store (`total_results` is their count), returns at most `limit`
repositories, each returned repository's `matching_files` is a permutation of
exactly the raw hits with its `repo_name` (a nonempty set) sorted by
descending score, its `relevance_score` is the arithmetic mean of those
scores, and the returned repositories are ordered by descending mean
relevance — so no repository is ever ranked above another whose mean score
among the returned hits is strictly higher. -/
theorem semantic_search_with_context_spec (searchFn : String → Nat → List Hit)
    (query : String) (limit : Nat) :
    (semantic_search_with_context searchFn query limit).total_results
        = (searchFn query (2 * limit)).length ∧
    (semantic_search_with_context searchFn query limit).results_by_repository.length
        ≤ limit ∧
    (∀ p ∈ (semantic_search_with_context searchFn query limit).results_by_repository,
        p.2.matching_files.Perm (keyFilter (searchFn query (2 * limit)) p.1) ∧
        keyFilter (searchFn query (2 * limit)) p.1 ≠ [] ∧
        p.2.relevance_score
          = sumScores p.2.matching_files / (p.2.matching_files.length : ℚ) ∧
        List.Pairwise (fun a b => b.score ≤ a.score) p.2.matching_files) ∧
    List.Pairwise (fun a b => b.2.relevance_score ≤ a.2.relevance_score)
      (semantic_search_with_context searchFn query limit).results_by_repository := by
  rw [Nat.mul_comm 2 limit]
  refine ⟨rfl, ?_, ?_, ?_⟩
  · simp only [semantic_search_with_context]
    rw [List.length_take]
    exact min_le_left _ _
  · intro p hp
    obtain ⟨q, hq, hpq⟩ := mem_results_by_repository searchFn query limit p hp
    obtain ⟨hfilter, hne⟩ := mem_groupHits _ q hq
    subst hpq
    have hperm := sortFilesDesc_perm q.2
    refine ⟨?_, ?_, ?_, ?_⟩
    · simpa [← hfilter] using hperm
    · rw [← hfilter]; exact hne
    · have hsum : sumScores (sortFilesDesc q.2) = sumScores q.2 :=
        (hperm.map Hit.score).sum_eq
      have hlen : (sortFilesDesc q.2).length = q.2.length := hperm.length_eq
      simp [sumScores] at hsum
      simp [sumScores, hsum, hlen]
    · exact pairwise_sortFilesDesc q.2
  · simp only [semantic_search_with_context]
    exact List.Pairwise.sublist (List.take_sublist _ _)
      (pairwise_mergeSort_repoLE _)

/-- A concrete search collaborator used to instantiate theorems: three hits
across two repositories. -/
def exSearch : String → Nat → List Hit :=
  fun _ _ =>
    [ { repo_name := "alpha", path := "a.py", content := "a", score := 4 }
    , { repo_name := "beta", path := "b.py", content := "b", score := 2 }
    , { repo_name := "alpha", path := "c.py", content := "c", score := 1 } ]

/-- Witness for C1 at a concrete search function, query and limit. -/
theorem semantic_search_with_context_spec_witness :
    (semantic_search_with_context exSearch "one" 2).total_results = 3 ∧
    (semantic_search_with_context exSearch "one" 2).results_by_repository.length
      ≤ 2 := by
  have h := semantic_search_with_context_spec exSearch "one" 2
  exact ⟨h.1.trans rfl, h.2.1⟩

/-- An input document dict as passed to `LocalVectorStore.add_documents`
(the extractor's file record tagged with `repo_name`). -/
structure Doc where
  repo_name : String
  path : String
  content : String
  extension : String
  size : Nat
  modified : String
  hash : String
deriving DecidableEq

/-- The composed text embedded for a document:
`f"File: {doc['path']}\n\nContent:\n{doc['content']}"`
(`vector_store.py` line 164). -/
def composeDocText (d : Doc) : String :=
  "File: " ++ d.path ++ "\n\nContent:\n" ++ d.content

/-- A record persisted by a backend: embedding vector, payload, timestamp. -/
structure StoredDoc where
  vector : List ℚ
  doc : Doc
  added_at : String
deriving DecidableEq

/-- Vector-store state: backend contents plus a log of `embed_batch` calls
(one entry per invocation of the Embedding Provider's batch method). -/
structure VSState where
  docs : List StoredDoc
  embedLog : List (List String)
deriving DecidableEq

/-- `LocalVectorStore.embed_batch` (`vector_store.py` lines 150-153):
delegates to the provider and is recorded in the call log. -/
def embed_batch (embedder : List String → List (List ℚ)) (st : VSState)
    (texts : List String) : List (List ℚ) × VSState :=
  (embedder texts, { st with embedLog := st.embedLog ++ [texts] })

/-- `LocalVectorStore.add_documents` (`vector_store.py` lines 159-174):
returns 0 immediately on an empty list, otherwise embeds the composed texts in
one batch and dispatches to the active backend.  Each of the three backend
branches (`_add_to_qdrant`, `_add_to_chroma`, `_add_to_lancedb`) persists one
record per `(document, embedding)` pair (via `zip`) and returns that count,
so the dispatch is modelled uniformly.  `now` stands for
`datetime.now().isoformat()`. -/
def add_documents (embedder : List String → List (List ℚ)) (now : String)
    (st : VSState) (documents : List Doc) : Nat × VSState :=
  if documents = [] then (0, st)
  else
    let texts := documents.map composeDocText
    let p := embed_batch embedder st texts
    let records := (documents.zip p.1).map (fun dv =>
      { vector := dv.2, doc := dv.1, added_at := now : StoredDoc })
    (records.length, { p.2 with docs := p.2.docs ++ records })

/-- `LocalVectorStore.delete_repo` backend effect (all three backends
delete by `repo_name` match): remove every stored document whose `repo_name`
equals the argument. -/
def vs_delete_repo (st : VSState) (repo_name : String) : VSState :=
  { st with docs := st.docs.filter (fun d => ¬ d.doc.repo_name = repo_name) }

/-- C2: `add_documents` on the empty input list returns 0, makes no call to
the Embedding Provider (the `embed_batch` call log is untouched) and leaves
the backend contents unchanged. -/
theorem add_documents_empty (embedder : List String → List (List ℚ))
    (now : String) (st : VSState) :
    add_documents embedder now st [] = (0, st) := by
  simp [add_documents]

/-- Outcome-level model of `LocalVectorStore.delete_repo` (`vector_store.py`
lines 318-345): the backend delete call's outcome is the parameter; the
`try/except Exception as e` block around the whole dispatch catches any
backend error and only prints it, so the method returns normally (`None`)
whether the backend call succeeded or raised. -/
def delete_repo_result (backendOutcome : Except String Unit) :
    Except String Unit :=
  match backendOutcome with
  | Except.ok _ => Except.ok ()
  | Except.error _ => Except.ok ()

/-- Outcome-level model of `LocalVectorStore.search` (`vector_store.py` lines
230-242): embed the query, then dispatch to the backend search.  There is no
exception handler, so a raised error propagates to the caller. -/
def search_result (embedOutcome : Except String (List ℚ))
    (backendSearch : List ℚ → Except String (List Hit)) :
    Except String (List Hit) :=
  match embedOutcome with
  | Except.error e => Except.error e
  | Except.ok v => backendSearch v

/-- Outcome-level model of `add_documents` error propagation
(`vector_store.py` lines 159-174): apart from the empty-input early return,
there is no exception handler around the embed call or the backend add. -/
def add_documents_result (documents : List Doc)
    (embedOutcome : Except String (List (List ℚ)))
    (backendAdd : List (List ℚ) → Except String Nat) : Except String Nat :=
  if documents = [] then Except.ok 0
  else
    match embedOutcome with
    | Except.error e => Except.error e
    | Except.ok es => backendAdd es

/-- C9 counterexample: a backend failure inside `delete_repo` is swallowed —
the method returns normally (`try/except` only prints the error), so the
caller sees a success, not an error result. -/
theorem delete_repo_swallows_backend_error :
    delete_repo_result (Except.error "backend failure") = Except.ok () := rfl

/-- C9 (amended): mid-operation backend errors during `add_documents` and
`search` propagate to the caller (both the embedding call and the backend
call), but `delete_repo` catches every backend error and only logs it,
returning normally — the failure is not visible to the caller. -/
theorem backend_error_surfacing (e : String) (v : List ℚ)
    (backendSearch : List ℚ → Except String (List Hit))
    (backendAdd : List (List ℚ) → Except String Nat)
    (documents : List Doc) (es : List (List ℚ)) (hne : documents ≠ []) :
    search_result (Except.error e) backendSearch = Except.error e ∧
    search_result (Except.ok v) backendSearch = backendSearch v ∧
    add_documents_result documents (Except.error e) backendAdd
      = Except.error e ∧
    add_documents_result documents (Except.ok es) backendAdd = backendAdd es ∧
    delete_repo_result (Except.error e) = Except.ok () := by
  refine ⟨rfl, rfl, ?_, ?_, rfl⟩
  · simp [add_documents_result, hne]
  · simp [add_documents_result, hne]

/-- A concrete document used to instantiate theorems. -/
def exDoc : Doc :=
  { repo_name := "alpha", path := "a.py", content := "print", extension := ".py"
    size := 5, modified := "2025-01-01", hash := "h0" }

/-- Witness for C9's amended theorem at concrete outcomes. -/
theorem backend_error_surfacing_witness :
    add_documents_result [exDoc] (Except.error "boom")
        (fun _ => Except.ok 1) = Except.error "boom" ∧
    delete_repo_result (Except.error "boom") = Except.ok () := by
  have h := backend_error_surfacing "boom" [1] (fun _ => Except.ok [])
    (fun _ => Except.ok 1) [exDoc] [[1]] (by simp)
  exact ⟨h.2.2.1, h.2.2.2.2⟩

/-- A Qdrant point: embedding vector plus payload. -/
structure QPoint where
  vector : List ℚ
  payload : Doc
deriving DecidableEq

/-- A Qdrant collection: the vector dimension fixed at creation, plus the
stored points. -/
structure QdrantCollection where
  dimension : Nat
  points : List QPoint
deriving DecidableEq

/-- `_create_qdrant_collection` (`vector_store.py` lines 100-108): a fresh,
empty collection with the given dimension. -/
def create_qdrant_collection (cols : List (String × QdrantCollection))
    (name : String) (dimension : Nat) : List (String × QdrantCollection) :=
  cols ++ [(name, { dimension := dimension, points := [] })]

/-- `client.delete_collection`: drop the named collection. -/
def delete_collection (cols : List (String × QdrantCollection))
    (name : String) : List (String × QdrantCollection) :=
  cols.filter (fun p => ¬ p.1 = name)

/-- `_init_qdrant` (`vector_store.py` lines 65-98), connection already
established: if the collection exists, embed the probe string "test",
compare the resulting dimension with the collection's stored dimension, and
on mismatch delete and recreate the collection (discarding its points);
otherwise create the collection with the probe dimension. -/
def init_qdrant (embed_query : String → List ℚ)
    (cols : List (String × QdrantCollection)) (name : String) :
    List (String × QdrantCollection) :=
  match assocFind cols name with
  | some info =>
    let required := (embed_query "test").length
    if info.dimension ≠ required then
      create_qdrant_collection (delete_collection cols name) name required
    else cols
  | none => create_qdrant_collection cols name (embed_query "test").length

/-- `_init_chroma` (`vector_store.py` lines 110-117):
`get_or_create_collection` — an existing collection is used as-is (the code
performs no probe embedding and no dimension comparison); a missing one is
created empty. -/
def init_chroma (cols : List (String × List QPoint)) (name : String) :
    List (String × List QPoint) :=
  match assocFind cols name with
  | some _ => cols
  | none => cols ++ [(name, [])]

/-- A LanceDB table: schema dimension plus rows. -/
structure LanceTable where
  dimension : Nat
  rows : List QPoint
deriving DecidableEq

/-- `_init_lancedb` (`vector_store.py` lines 119-148): the probe dimension is
computed up front, but an existing table is opened unchanged (`open_table`);
only a missing table is created, with the probe dimension. -/
def init_lancedb (embed_query : String → List ℚ)
    (tables : List (String × LanceTable)) (name : String) :
    List (String × LanceTable) :=
  let embedding_dimension := (embed_query "test").length
  match assocFind tables name with
  | some _ => tables
  | none => tables ++ [(name, { dimension := embedding_dimension, rows := [] })]

lemma assocFind_append_single {α : Type} (l : List (String × α)) (k : String)
    (v : α) (hk : ∀ p ∈ l, ¬ p.1 = k) : assocFind (l ++ [(k, v)]) k = some v := by
  induction l with
  | nil => simp [assocFind]
  | cons p rest ih =>
    have hp : ¬ p.1 = k := hk p (List.mem_cons_self p rest)
    rw [List.cons_append]
    show assocFind ((p.1, p.2) :: (rest ++ [(k, v)])) k = some v
    rw [assocFind]
    simp only [hp, if_false]
    exact ih (fun q hq => hk q (List.mem_cons_of_mem p hq))

lemma assocFind_delete_collection_append (cols : List (String × QdrantCollection))
    (name : String) (d : Nat) :
    assocFind (create_qdrant_collection (delete_collection cols name) name d)
      name = some { dimension := d, points := [] } := by
  apply assocFind_append_single
  intro p hp
  have := List.of_mem_filter hp
  simpa using this

/-- An old stored point whose embedding has dimension 3. -/
def exOldPoint : QPoint := { vector := [1, 0, 0], payload := exDoc }

/-- A Chroma backend state holding one existing collection with one stored
document embedded at dimension 3. -/
def exChromaCols : List (String × List QPoint) :=
  [("repo_knowledge", [exOldPoint])]

/-- An embedding model whose output dimension is 5 (a changed model). -/
def exEmbed5 : String → List ℚ := fun _ => [0, 0, 0, 0, 0]

/-- C8 counterexample: reopening an existing Chroma collection after the
embedding model's dimension changed (stored vectors have dimension 3, the
current model produces dimension 5) leaves the collection untouched — the
Chroma initialisation performs no dimension probe and discards nothing, so
the old document is still present and a subsequent search can return it.
This refutes the claim that all three backends destroy and recreate the
collection on dimension mismatch. -/
theorem chroma_open_keeps_mismatched_docs :
    exOldPoint.vector.length ≠ (exEmbed5 "test").length ∧
    init_chroma exChromaCols "repo_knowledge" = exChromaCols ∧
    assocFind (init_chroma exChromaCols "repo_knowledge") "repo_knowledge"
      = some [exOldPoint] := by
  refine ⟨by decide, rfl, rfl⟩

/-- C8 (amended): only the Qdrant backend reconciles the embedding dimension
on open: when the existing collection's dimension differs from the probe
dimension, the collection is deleted and recreated empty with the new
dimension (so any sound retrieval over its contents returns zero hits).  The
Chroma backend opens an existing collection as-is with no dimension check,
and the LanceDB backend opens an existing table unchanged. -/
theorem dimension_reconciliation_spec (embed_query : String → List ℚ)
    (cols : List (String × QdrantCollection))
    (ccols : List (String × List QPoint))
    (tables : List (String × LanceTable)) (name : String)
    (info : QdrantCollection) (hq : assocFind cols name = some info)
    (hdim : info.dimension ≠ (embed_query "test").length)
    (centry : List QPoint) (hc : assocFind ccols name = some centry)
    (t : LanceTable) (hl : assocFind tables name = some t) :
    assocFind (init_qdrant embed_query cols name) name
      = some { dimension := (embed_query "test").length, points := [] } ∧
    (∀ retrieve : List QPoint → List QPoint,
      (∀ (l : List QPoint) (x : QPoint), x ∈ retrieve l → x ∈ l) →
      retrieve ((assocFind (init_qdrant embed_query cols name) name).getD
          { dimension := 0, points := [] }).points = []) ∧
    init_chroma ccols name = ccols ∧
    init_lancedb embed_query tables name = tables := by
  have hfind : assocFind (init_qdrant embed_query cols name) name
      = some { dimension := (embed_query "test").length, points := [] } := by
    rw [init_qdrant, hq]
    simp only [if_pos hdim]
    exact assocFind_delete_collection_append cols name _
  refine ⟨hfind, ?_, ?_, ?_⟩
  · intro retrieve hsound
    rw [hfind]
    refine List.eq_nil_iff_forall_not_mem.mpr ?_
    intro x hx
    exact absurd (hsound _ _ hx) (List.not_mem_nil x)
  · rw [init_chroma, hc]
  · rw [init_lancedb, hl]

/-- A Qdrant backend state with one existing collection of dimension 3. -/
def exQCols : List (String × QdrantCollection) :=
  [("repo_knowledge", { dimension := 3, points := [exOldPoint] })]

/-- A LanceDB backend state with one existing table of dimension 3. -/
def exLTables : List (String × LanceTable) :=
  [("repo_knowledge", { dimension := 3, rows := [exOldPoint] })]

/-- Witness for C8's amended theorem at concrete backend states and a
changed embedding model. -/
theorem dimension_reconciliation_spec_witness :
    assocFind (init_qdrant exEmbed5 exQCols "repo_knowledge") "repo_knowledge"
      = some { dimension := 5, points := [] } ∧
    init_chroma exChromaCols "repo_knowledge" = exChromaCols ∧
    init_lancedb exEmbed5 exLTables "repo_knowledge" = exLTables := by
  have h := dimension_reconciliation_spec exEmbed5 exQCols exChromaCols
    exLTables "repo_knowledge"
    { dimension := 3, points := [exOldPoint] } rfl (by decide)
    [exOldPoint] rfl
    { dimension := 3, rows := [exOldPoint] } rfl
  exact ⟨h.1, h.2.2.1, h.2.2.2⟩

/-- The allow-set of file extensions (Config.SUPPORTED_EXTENSIONS in
config.py). -/
def supportedExtensions : List String :=
  [".py", ".js", ".ts", ".jsx", ".tsx", ".php", ".java", ".cpp", ".c",
   ".h", ".hpp", ".cs", ".rb", ".go", ".rs", ".swift", ".kt", ".scala",
   ".md", ".txt", ".json", ".yaml", ".yml", ".xml", ".html", ".css",
   ".scss", ".sass", ".less", ".sql", ".sh", ".bash", ".zsh"]

/-- The ignore-set of directory names (Config.IGNORE_DIRS in config.py). -/
def ignoreDirs : List String :=
  [".git", "node_modules", "vendor", "__pycache__", ".pytest_cache",
   "venv", "env", ".env", "dist", "build", "target", ".idea", ".vscode"]

/-- The processing configuration (config.py): ignore-set, allow-set and the
maximum file size in MiB (default 2, overridable by environment). -/
structure ProcConfig where
  IGNORE_DIRS : List String
  SUPPORTED_EXTENSIONS : List String
  MAX_FILE_SIZE_MB : Nat
deriving DecidableEq

/-- The default configuration values of config.py. -/
def defaultProcConfig : ProcConfig :=
  { IGNORE_DIRS := ignoreDirs
    SUPPORTED_EXTENSIONS := supportedExtensions
    MAX_FILE_SIZE_MB := 2 }

/-- The filesystem view of one walk entry as consulted by the inclusion
predicate: its path segments (Path.parts, which include the file name
itself), its extension (Path.suffix), whether it is a regular file, and its
stat size (none models a FileNotFoundError raised by stat). -/
structure FileMeta where
  parts : List String
  suffix : String
  is_file : Bool
  size : Option Nat
deriving DecidableEq

/-- The inclusion predicate of the extractor (repo_processor.py lines
93-115): reject non-regular files, entries with a path segment in the
ignore-set, extensions outside the allow-set, entries whose stat raises, and
files larger than the configured maximum. -/
def should_process_file (cfg : ProcConfig) (f : FileMeta) : Bool :=
  if f.is_file = false then false
  else if f.parts.any (fun part => decide (part ∈ cfg.IGNORE_DIRS)) then false
  else if f.suffix ∉ cfg.SUPPORTED_EXTENSIONS then false
  else
    match f.size with
    | none => false
    | some s => if s > cfg.MAX_FILE_SIZE_MB * 1024 * 1024 then false else true

lemma should_process_file_iff (cfg : ProcConfig) (f : FileMeta) (s : Nat)
    (hs : f.size = some s) :
    should_process_file cfg f = true ↔
      (f.is_file = true ∧ (∀ part ∈ f.parts, part ∉ cfg.IGNORE_DIRS) ∧
       f.suffix ∈ cfg.SUPPORTED_EXTENSIONS ∧
       s ≤ cfg.MAX_FILE_SIZE_MB * 1024 * 1024) := by
  rw [should_process_file, hs]
  by_cases h1 : f.is_file = false
  · simp [h1]
  · have h1' : f.is_file = true := by
      cases hval : f.is_file
      · exact absurd hval h1
      · rfl
    rw [if_neg h1]
    by_cases h2 : f.parts.any (fun part => decide (part ∈ cfg.IGNORE_DIRS)) = true
    · rw [if_pos h2]
      rw [List.any_eq_true] at h2
      obtain ⟨p, hp, hin⟩ := h2
      simp only [decide_eq_true_eq] at hin
      constructor
      · intro hfalse; cases hfalse
      · rintro ⟨-, hall, -, -⟩
        exact absurd hin (hall p hp)
    · have h2' : (∀ part ∈ f.parts, part ∉ cfg.IGNORE_DIRS) := by
        intro p hp hin
        exact h2 (List.any_eq_true.mpr ⟨p, hp, by simpa using hin⟩)
      rw [if_neg h2]
      by_cases h3 : f.suffix ∈ cfg.SUPPORTED_EXTENSIONS
      · rw [if_neg (not_not_intro h3)]
        show (if s > cfg.MAX_FILE_SIZE_MB * 1024 * 1024 then false else true)
            = true ↔ _
        by_cases h4 : s > cfg.MAX_FILE_SIZE_MB * 1024 * 1024
        · rw [if_pos h4]
          constructor
          · intro hfalse; cases hfalse
          · rintro ⟨-, -, -, hle⟩
            exact absurd h4 (Nat.not_lt.mpr hle)
        · rw [if_neg h4]
          constructor
          · intro _
            exact ⟨h1', h2', h3, Nat.not_lt.mp h4⟩
          · intro _; rfl
      · rw [if_pos h3]
        constructor
        · intro hfalse; cases hfalse
        · rintro ⟨-, -, hmem, -⟩
          exact absurd hmem h3

lemma should_process_file_ignored (cfg : ProcConfig) (f : FileMeta)
    (h : ∃ part ∈ f.parts, part ∈ cfg.IGNORE_DIRS) :
    should_process_file cfg f = false := by
  rw [should_process_file]
  obtain ⟨p, hp, hin⟩ := h
  have hany : f.parts.any (fun part => decide (part ∈ cfg.IGNORE_DIRS)) = true :=
    List.any_eq_true.mpr ⟨p, hp, by simpa using hin⟩
  by_cases h1 : f.is_file = false
  · simp [h1]
  · simp [h1, hany]

lemma should_process_file_bad_ext (cfg : ProcConfig) (f : FileMeta)
    (h : f.suffix ∉ cfg.SUPPORTED_EXTENSIONS) :
    should_process_file cfg f = false := by
  rw [should_process_file]
  by_cases h1 : f.is_file = false
  · simp [h1]
  · by_cases h2 : f.parts.any (fun part => decide (part ∈ cfg.IGNORE_DIRS)) = true
    · simp [h1, h2]
    · simp [h1, h2, h]

lemma should_process_file_oversize (cfg : ProcConfig) (f : FileMeta) (s : Nat)
    (hs : f.size = some s) (h : cfg.MAX_FILE_SIZE_MB * 1024 * 1024 < s) :
    should_process_file cfg f = false := by
  rw [should_process_file, hs]
  by_cases h1 : f.is_file = false
  · simp [h1]
  · by_cases h2 : f.parts.any (fun part => decide (part ∈ cfg.IGNORE_DIRS)) = true
    · simp [h1, h2]
    · by_cases h3 : f.suffix ∈ cfg.SUPPORTED_EXTENSIONS
      · simp [h1, h2, h3, h]
      · simp [h1, h2, h3]

/-- C6: the inclusion predicate accepts an entry (with a known stat size) iff
it is a regular file, no segment of its path is in the configured ignore-set,
its extension is in the configured allow-set, and its size does not exceed
the configured maximum; consequently any entry with an ignored path segment
is excluded regardless of extension, any entry with a disallowed extension
is excluded, and any oversized entry is excluded even if otherwise valid. -/
theorem should_process_file_spec (cfg : ProcConfig) (f : FileMeta) (s : Nat)
    (hs : f.size = some s) :
    (should_process_file cfg f = true ↔
      (f.is_file = true ∧ (∀ part ∈ f.parts, part ∉ cfg.IGNORE_DIRS) ∧
       f.suffix ∈ cfg.SUPPORTED_EXTENSIONS ∧
       s ≤ cfg.MAX_FILE_SIZE_MB * 1024 * 1024)) ∧
    ((∃ part ∈ f.parts, part ∈ cfg.IGNORE_DIRS) →
      should_process_file cfg f = false) ∧
    (f.suffix ∉ cfg.SUPPORTED_EXTENSIONS →
      should_process_file cfg f = false) ∧
    (cfg.MAX_FILE_SIZE_MB * 1024 * 1024 < s →
      should_process_file cfg f = false) :=
  ⟨should_process_file_iff cfg f s hs,
   should_process_file_ignored cfg f,
   should_process_file_bad_ext cfg f,
   should_process_file_oversize cfg f s hs⟩

/-- The stat/path view of a small regular main.py at repository root. -/
def exPyMeta : FileMeta :=
  { parts := ["main.py"], suffix := ".py", is_file := true, size := some 20 }

/-- Witness for C6: the default configuration accepts a small main.py. -/
theorem should_process_file_spec_witness :
    should_process_file defaultProcConfig exPyMeta = true := by
  have h := should_process_file_spec defaultProcConfig exPyMeta 20 rfl
  exact h.1.mpr (by decide)

/-- One filesystem entry visited by the recursive walk of
extract_files_content: the stat/path view used by the inclusion predicate,
the repository-relative and full path strings, the decoded content (none
models every attempted encoding failing, matching read_file_content
returning None), and the stat mtime string. -/
structure FsEntry where
  meta : FileMeta
  rel_path : String
  full_path : String
  content : Option String
  modified : String
deriving DecidableEq

/-- A file record produced by extract_files_content (one element of
files_data); hash is the digest of the content, through the abstract digest
collaborator passed to the extractor. -/
structure FileRecord where
  path : String
  full_path : String
  content : String
  extension : String
  size : Nat
  modified : String
  hash : String
deriving DecidableEq

/-- extract_files_content (repo_processor.py lines 70-91): for each walk
entry accepted by the inclusion predicate, read the content; a record is
appended only when the read succeeded and the decoded string is truthy in
Python — that is, nonempty.  md5 is the digest collaborator. -/
def extract_files_content (cfg : ProcConfig) (md5 : String → String)
    (entries : List FsEntry) : List FileRecord :=
  entries.foldr (fun e acc =>
    if should_process_file cfg e.meta then
      match e.content with
      | some c =>
        if c = "" then acc
        else
          { path := e.rel_path, full_path := e.full_path, content := c
            extension := e.meta.suffix, size := e.meta.size.getD 0
            modified := e.modified, hash := md5 c } :: acc
      | none => acc
    else acc) []

/-- A stand-in digest collaborator for concrete evaluations. -/
def exMd5 : String → String := fun s => s

/-- The stat/path view of the empty empty.py of the test fixture in
tests/conftest.py: a regular file, supported extension, size 0, at the
repository root. -/
def emptyPyMeta : FileMeta :=
  { parts := ["empty.py"], suffix := ".py", is_file := true, size := some 0 }

/-- The mock_repo test fixture of tests/conftest.py as a list of walk
entries: main.py, README.md, src/utils.js, a file inside node_modules, a
.bin file, the empty empty.py, and a 3 MiB large_file.txt. -/
def fixtureEntries : List FsEntry :=
  [ { meta := { parts := ["main.py"], suffix := ".py", is_file := true
                size := some 20 }
      rel_path := "main.py", full_path := "test_repo/main.py"
      content := some "print(*hello world*)", modified := "t1" }
  , { meta := { parts := ["README.md"], suffix := ".md", is_file := true
                size := some 11 }
      rel_path := "README.md", full_path := "test_repo/README.md"
      content := some "# Test Repo", modified := "t2" }
  , { meta := { parts := ["src"], suffix := "", is_file := false
                size := none }
      rel_path := "src", full_path := "test_repo/src"
      content := none, modified := "t3" }
  , { meta := { parts := ["src", "utils.js"], suffix := ".js", is_file := true
                size := some 21 }
      rel_path := "src/utils.js", full_path := "test_repo/src/utils.js"
      content := some "console.log(*utils*);", modified := "t4" }
  , { meta := { parts := ["node_modules", "some_lib", "ignored_file.js"]
                suffix := ".js", is_file := true, size := some 7 }
      rel_path := "node_modules/some_lib/ignored_file.js"
      full_path := "test_repo/node_modules/some_lib/ignored_file.js"
      content := some "ignored", modified := "t5" }
  , { meta := { parts := ["data.bin"], suffix := ".bin", is_file := true
                size := some 3 }
      rel_path := "data.bin", full_path := "test_repo/data.bin"
      content := none, modified := "t6" }
  , { meta := emptyPyMeta
      rel_path := "empty.py", full_path := "test_repo/empty.py"
      content := some "", modified := "t7" }
  , { meta := { parts := ["large_file.txt"], suffix := ".txt", is_file := true
                size := some 3145728 }
      rel_path := "large_file.txt", full_path := "test_repo/large_file.txt"
      content := some "aaa", modified := "t8" } ]

/-- C7: evaluating the extractor on the model of the mock_repo test fixture
of tests/conftest.py.  The empty empty.py passes the inclusion predicate and
its content decodes successfully (to the empty string), yet it yields no
file record: the truthiness guard on the decoded content drops empty files,
so extraction yields 3 records, not the 4 asserted by the test
test_extract_files_content_from_mock_repo. -/
theorem extract_files_content_drops_empty_file :
    should_process_file defaultProcConfig emptyPyMeta = true ∧
    (extract_files_content defaultProcConfig exMd5 fixtureEntries).map
        FileRecord.path = ["main.py", "README.md", "src/utils.js"] ∧
    (extract_files_content defaultProcConfig exMd5 fixtureEntries).length
        = 3 := by
  refine ⟨by decide, by decide, by decide⟩

/-- A ledger entry of processed_repos (knowledge_graph.py lines 58-65):
provenance and processing stats for one repository name.  Paths are segment
lists of normalised absolute paths. -/
structure LedgerEntry where
  source : String
  is_url : Bool
  processed_at : String
  files_processed : Nat
  data_file : List String
  repo_path : List String
deriving DecidableEq

/-- Insert-or-overwrite keyed by name, keeping the position of an existing
key: Python dict assignment. -/
def dictInsert {α : Type} (m : List (String × α)) (k : String) (v : α) :
    List (String × α) :=
  match m with
  | [] => [(k, v)]
  | (k', v') :: rest =>
    if k' = k then (k, v) :: rest else (k', v') :: dictInsert rest k v

/-- Delete a key: Python del on a dict (keys unique, first occurrence). -/
def dictErase {α : Type} (m : List (String × α)) (k : String) :
    List (String × α) :=
  match m with
  | [] => []
  | (k', v') :: rest =>
    if k' = k then rest else (k', v') :: dictErase rest k

/-- The orchestrator state: the in-memory ledger dict, the persisted ledger
file content (none while processed_repos.json does not exist), the vector
store, and the filesystem as sets of existing directories and files. -/
structure KGState where
  processed_repos : List (String × LedgerEntry)
  ledger_file : Option (List (String × LedgerEntry))
  store : VSState
  fs_dirs : List (List String)
  fs_files : List (List String)
deriving DecidableEq

/-- The result dict of process_repository (repo_processor.py lines 193-218):
metadata name (the repository directory name; meaningful only when files
were found), file count, saved artifact path (none when nothing was
processed), repository path, and the file records the artifact holds. -/
structure RepoInfo where
  metadata_name : String
  files_processed : Nat
  data_file : Option (List String)
  repo_path : List String
  files : List FileRecord
deriving DecidableEq

/-- process_repository (repo_processor.py lines 181-219): materialise the
repository (clone_or_update_repo for a URL, scan_local_directory for a local
path — the materialize collaborator), extract file records, and either
return the zero-files result without saving anything, or save the artifact
(the saveArtifact collaborator names its path) and return the full result. -/
def process_repository (materialize : String → Bool → List String)
    (extract : List String → List FileRecord)
    (saveArtifact : List String → List String)
    (repo_source : String) (is_url : Bool) : RepoInfo :=
  let repo_path := materialize repo_source is_url
  let files_data := extract repo_path
  if files_data = [] then
    { metadata_name := "", files_processed := 0, data_file := none
      repo_path := repo_path, files := [] }
  else
    { metadata_name := repo_path.getLast?.getD ""
      files_processed := files_data.length
      data_file := some (saveArtifact repo_path)
      repo_path := repo_path, files := files_data }

/-- Tag a file record with the effective repository name, producing the
document dict handed to the vector store (knowledge_graph.py lines 50-53). -/
def tagRecord (repo_name : String) (f : FileRecord) : Doc :=
  { repo_name := repo_name, path := f.path, content := f.content
    extension := f.extension, size := f.size, modified := f.modified
    hash := f.hash }

/-- Result of add_repository and update_repository: the summary dict, or an
error (the error dict returned by add, or the ValueError raised by update,
both modelled as a distinguishable error value). -/
inductive AddResult where
  | ok (repo_name : String) (files_processed : Nat) (documents_added : Nat)
  | error (msg : String)
deriving DecidableEq

/-- add_repository (knowledge_graph.py lines 36-76): process the source; on
zero extracted files return the error dict without touching any state;
otherwise tag the records with the effective name, add them to the vector
store, write/overwrite the ledger entry under that name and persist the
ledger. -/
def add_repository (proc : String → Bool → RepoInfo)
    (embedder : List String → List (List ℚ)) (now : String) (st : KGState)
    (repo_source : String) (repo_name : Option String) (is_url : Bool) :
    AddResult × KGState :=
  let repo_info := proc repo_source is_url
  if repo_info.files_processed = 0 then
    (AddResult.error "No files were processed from the repository.", st)
  else
    let effective_repo_name := repo_name.getD repo_info.metadata_name
    let documents := repo_info.files.map (tagRecord effective_repo_name)
    let p := add_documents embedder now st.store documents
    let entry : LedgerEntry :=
      { source := repo_source, is_url := is_url, processed_at := now
        files_processed := documents.length
        data_file := repo_info.data_file.getD []
        repo_path := repo_info.repo_path }
    let pr := dictInsert st.processed_repos effective_repo_name entry
    (AddResult.ok effective_repo_name documents.length p.1,
     { st with store := p.2, processed_repos := pr, ledger_file := some pr })

/-- update_repository (knowledge_graph.py lines 99-113): a missing name
raises ValueError (modelled as the error result) with no mutation; an
existing entry triggers the repository-scoped vector delete followed by the
add with the original source and flag under the same name. -/
def update_repository (proc : String → Bool → RepoInfo)
    (embedder : List String → List (List ℚ)) (now : String) (st : KGState)
    (repo_name : String) : AddResult × KGState :=
  match assocFind st.processed_repos repo_name with
  | none => (AddResult.error ("Repository not found: " ++ repo_name), st)
  | some repo_info =>
    let st1 := { st with store := vs_delete_repo st.store repo_name }
    add_repository proc embedder now st1 repo_info.source (some repo_name)
      repo_info.is_url

/-- Membership of an ancestor in PurePath.parents, for normalised absolute
paths modelled as segment lists: a strict segment prefix. -/
def inParents (anc p : List String) : Bool :=
  anc.isPrefixOf p && anc != p

/-- remove_repository (knowledge_graph.py lines 115-141): unknown names
report false without mutation; otherwise delete the repository documents
from the vector store, rmtree the recorded clone directory only when it
exists and REPOS_DIR is among its ancestors, unlink the data file when it
exists, delete the ledger entry and persist the ledger. -/
def remove_repository (REPOS_DIR : List String) (st : KGState)
    (repo_name : String) : Bool × KGState :=
  match assocFind st.processed_repos repo_name with
  | none => (false, st)
  | some repo_info =>
    let st1 := { st with store := vs_delete_repo st.store repo_name }
    let st2 :=
      if repo_info.repo_path ∈ st1.fs_dirs ∧
          inParents REPOS_DIR repo_info.repo_path = true then
        { st1 with
          fs_dirs := st1.fs_dirs.filter
            (fun q => ! repo_info.repo_path.isPrefixOf q)
          fs_files := st1.fs_files.filter
            (fun q => ! repo_info.repo_path.isPrefixOf q) }
      else st1
    let st3 :=
      if repo_info.data_file ∈ st2.fs_files then
        { st2 with
          fs_files := st2.fs_files.filter (fun q => q != repo_info.data_file) }
      else st2
    let pr := dictErase st3.processed_repos repo_name
    (true, { st3 with processed_repos := pr, ledger_file := some pr })

lemma assocFind_eq_none_of_not_mem {α : Type} (m : List (String × α))
    (k : String) (h : k ∉ m.map Prod.fst) : assocFind m k = none := by
  induction m with
  | nil => rfl
  | cons p rest ih =>
    obtain ⟨k', v'⟩ := p
    have hk : ¬ k' = k := by
      intro he
      exact h (by simp [he])
    rw [assocFind, if_neg hk]
    exact ih (fun hmem => h (by simp [hmem]))

lemma assocFind_dictErase_self {α : Type} (m : List (String × α)) (k : String)
    (hnd : (m.map Prod.fst).Nodup) : assocFind (dictErase m k) k = none := by
  induction m with
  | nil => rfl
  | cons p rest ih =>
    obtain ⟨k', v'⟩ := p
    have hnd' : (k' :: rest.map Prod.fst).Nodup := by simpa using hnd
    have hparts := List.nodup_cons.mp hnd'
    rw [dictErase]
    by_cases hk : k' = k
    · rw [if_pos hk]
      exact assocFind_eq_none_of_not_mem rest k (hk ▸ hparts.1)
    · rw [if_neg hk]
      rw [assocFind, if_neg hk]
      exact ih hparts.2

lemma remove_repository_found (REPOS_DIR : List String) (st : KGState)
    (repo_name : String) (e : LedgerEntry)
    (hfind : assocFind st.processed_repos repo_name = some e) :
    (remove_repository REPOS_DIR st repo_name).1 = true ∧
    (remove_repository REPOS_DIR st repo_name).2.processed_repos
      = dictErase st.processed_repos repo_name ∧
    (remove_repository REPOS_DIR st repo_name).2.ledger_file
      = some (dictErase st.processed_repos repo_name) := by
  simp only [remove_repository, hfind]
  split_ifs <;> exact ⟨by simp, by simp, by simp⟩

/-- C4: remove_repository returns true exactly when a ledger entry for the
name exists; an unknown name returns false without raising and leaves the
whole state (ledger included) unchanged; a known name (under the dict
invariant of unique keys) has its entry removed from both the in-memory and
the persisted ledger. -/
theorem remove_repository_spec (REPOS_DIR : List String) (st : KGState)
    (repo_name : String)
    (hnd : (st.processed_repos.map Prod.fst).Nodup) :
    ((remove_repository REPOS_DIR st repo_name).1 = true ↔
      (assocFind st.processed_repos repo_name).isSome = true) ∧
    (assocFind st.processed_repos repo_name = none →
      remove_repository REPOS_DIR st repo_name = (false, st)) ∧
    ((assocFind st.processed_repos repo_name).isSome = true →
      assocFind (remove_repository REPOS_DIR st repo_name).2.processed_repos
          repo_name = none ∧
      (remove_repository REPOS_DIR st repo_name).2.ledger_file
        = some (remove_repository REPOS_DIR st repo_name).2.processed_repos) := by
  refine ⟨?_, ?_, ?_⟩
  · cases hfind : assocFind st.processed_repos repo_name with
    | none => simp [remove_repository, hfind]
    | some e =>
      have h := remove_repository_found REPOS_DIR st repo_name e hfind
      simp [h.1]
  · intro hnone
    simp [remove_repository, hnone]
  · intro hsome
    cases hfind : assocFind st.processed_repos repo_name with
    | none =>
      rw [hfind] at hsome
      simp at hsome
    | some e =>
      obtain ⟨h1, h2, h3⟩ :=
        remove_repository_found REPOS_DIR st repo_name e hfind
      refine ⟨?_, ?_⟩
      · rw [h2]
        exact assocFind_dictErase_self st.processed_repos repo_name hnd
      · rw [h3, h2]

/-- A concrete ledger entry: a cloned remote repository whose clone lives
under the repos directory. -/
def exEntry : LedgerEntry :=
  { source := "https://example.com/alpha.git", is_url := true
    processed_at := "t0", files_processed := 1
    data_file := ["data", "alpha.json"], repo_path := ["repos", "alpha"] }

/-- A concrete orchestrator state with one processed repository. -/
def exKGState : KGState :=
  { processed_repos := [("alpha", exEntry)]
    ledger_file := some [("alpha", exEntry)]
    store := { docs := [], embedLog := [] }
    fs_dirs := [["repos", "alpha"], ["home", "src"]]
    fs_files := [["data", "alpha.json"]] }

/-- Witness for C4: removing an unknown name returns false and leaves the
state untouched; removing the known name empties its ledger slot. -/
theorem remove_repository_spec_witness :
    remove_repository ["repos"] exKGState "missing" = (false, exKGState) ∧
    assocFind (remove_repository ["repos"] exKGState "alpha").2.processed_repos
        "alpha" = none := by
  have h1 := remove_repository_spec ["repos"] exKGState "missing" (by decide)
  have h2 := remove_repository_spec ["repos"] exKGState "alpha" (by decide)
  exact ⟨h1.2.1 rfl, (h2.2.2 rfl).1⟩

/-- C3: when extraction yields zero qualifying files, add_repository run on
the result of process_repository returns an error result and leaves the
in-memory ledger, the persisted ledger file and the vector store unchanged
(no documents added, no ledger entry written or overwritten). -/
theorem add_repository_no_files (materialize : String → Bool → List String)
    (extract : List String → List FileRecord)
    (saveArtifact : List String → List String)
    (embedder : List String → List (List ℚ)) (now : String) (st : KGState)
    (repo_source : String) (repo_name : Option String) (is_url : Bool)
    (hempty : extract (materialize repo_source is_url) = []) :
    add_repository (process_repository materialize extract saveArtifact)
        embedder now st repo_source repo_name is_url
      = (AddResult.error "No files were processed from the repository.", st) := by
  simp [add_repository, process_repository, hempty]

/-- Witness for C3 with a concrete extractor finding nothing. -/
theorem add_repository_no_files_witness :
    add_repository
        (process_repository (fun _ _ => ["repos", "r1"]) (fun _ => [])
          (fun p => p ++ ["data.json"]))
        (fun _ => []) "t1" exKGState "https://example.com/r1.git" none true
      = (AddResult.error "No files were processed from the repository.",
         exKGState) :=
  add_repository_no_files (fun _ _ => ["repos", "r1"]) (fun _ => [])
    (fun p => p ++ ["data.json"]) (fun _ => []) "t1" exKGState
    "https://example.com/r1.git" none true rfl

/-- C5: update_repository on an unknown name fails with the not-found error
and mutates nothing; on a known name it first performs the repository-scoped
delete on the vector store and then re-runs add_repository with exactly the
ledger entry's original source and remote/local flag, under the same
repository name. -/
theorem update_repository_spec (proc : String → Bool → RepoInfo)
    (embedder : List String → List (List ℚ)) (now : String) (st : KGState)
    (repo_name : String) :
    (assocFind st.processed_repos repo_name = none →
      update_repository proc embedder now st repo_name
        = (AddResult.error ("Repository not found: " ++ repo_name), st)) ∧
    (∀ e, assocFind st.processed_repos repo_name = some e →
      update_repository proc embedder now st repo_name
        = add_repository proc embedder now
            { st with store := vs_delete_repo st.store repo_name }
            e.source (some repo_name) e.is_url) := by
  constructor
  · intro h
    simp [update_repository, h]
  · intro e h
    simp [update_repository, h]

/-- A concrete process collaborator returning one extracted record. -/
def exProc : String → Bool → RepoInfo :=
  fun src _ =>
    { metadata_name := "alpha", files_processed := 1
      data_file := some ["data", "alpha.json"]
      repo_path := ["repos", "alpha"]
      files := [ { path := "a.py", full_path := "repos/alpha/a.py"
                   content := "print", extension := ".py", size := 5
                   modified := src, hash := "h1" } ] }

/-- Witness for C5: the unknown-name branch at a concrete state, and the
known-name branch agreeing with delete-then-add. -/
theorem update_repository_spec_witness :
    update_repository exProc (fun _ => [[1]]) "t2" exKGState "missing"
      = (AddResult.error "Repository not found: missing", exKGState) ∧
    update_repository exProc (fun _ => [[1]]) "t2" exKGState "alpha"
      = add_repository exProc (fun _ => [[1]]) "t2"
          { exKGState with store := vs_delete_repo exKGState.store "alpha" }
          exEntry.source (some "alpha") exEntry.is_url := by
  have h := update_repository_spec exProc (fun _ => [[1]]) "t2" exKGState
    "missing"
  have h2 := update_repository_spec exProc (fun _ => [[1]]) "t2" exKGState
    "alpha"
  exact ⟨h.1 rfl, h2.2 exEntry rfl⟩

lemma isPrefixOf_rfl (l : List String) : l.isPrefixOf l = true := by
  induction l with
  | nil => rfl
  | cons a t ih => simp [List.isPrefixOf, ih]

/-- C10: for a remove of an existing name, the recorded repository directory
is deleted from disk only when REPOS_DIR is strictly among its ancestors —
when it is not (a user-supplied local source directory), no directory is
deleted at all; when it is and the directory exists, it is removed (with its
subtree); and the per-repository extraction artifact file never survives the
call. -/
theorem remove_repository_disk_effects (REPOS_DIR : List String)
    (st : KGState) (repo_name : String) (e : LedgerEntry)
    (hfind : assocFind st.processed_repos repo_name = some e) :
    (inParents REPOS_DIR e.repo_path = false →
      ∀ q ∈ st.fs_dirs,
        q ∈ (remove_repository REPOS_DIR st repo_name).2.fs_dirs) ∧
    (inParents REPOS_DIR e.repo_path = true → e.repo_path ∈ st.fs_dirs →
      e.repo_path ∉ (remove_repository REPOS_DIR st repo_name).2.fs_dirs) ∧
    e.data_file ∉ (remove_repository REPOS_DIR st repo_name).2.fs_files := by
  simp only [remove_repository, hfind]
  split_ifs with h1 h2 h3
  · refine ⟨?_, ?_, ?_⟩
    · intro hpar
      rw [hpar] at h1
      exact absurd h1.2 Bool.false_ne_true
    · intro _ _ hmem
      simp [List.mem_filter, isPrefixOf_rfl] at hmem
    · intro hmem
      simp [List.mem_filter] at hmem
  · refine ⟨?_, ?_, ?_⟩
    · intro hpar
      rw [hpar] at h1
      exact absurd h1.2 Bool.false_ne_true
    · intro _ _ hmem
      simp [List.mem_filter, isPrefixOf_rfl] at hmem
    · exact h2
  · refine ⟨?_, ?_, ?_⟩
    · intro _ q hq
      exact hq
    · intro hpar hmem
      exact absurd ⟨hmem, hpar⟩ h1
    · intro hmem
      simp [List.mem_filter] at hmem
  · refine ⟨?_, ?_, ?_⟩
    · intro _ q hq
      exact hq
    · intro hpar hmem
      exact absurd ⟨hmem, hpar⟩ h1
    · exact h3

/-- A ledger entry for a user-supplied local source directory that does not
lie under the repos directory. -/
def exEntryLocal : LedgerEntry :=
  { source := "/home/src", is_url := false, processed_at := "t0"
    files_processed := 1, data_file := ["data", "beta.json"]
    repo_path := ["home", "src"] }

/-- An orchestrator state holding only the local-source repository. -/
def exKGStateLocal : KGState :=
  { processed_repos := [("beta", exEntryLocal)]
    ledger_file := some [("beta", exEntryLocal)]
    store := { docs := [], embedLog := [] }
    fs_dirs := [["home", "src"]]
    fs_files := [["data", "beta.json"]] }

/-- Witness for C10: removing the local-source repository leaves its source
directory on disk (it is outside the repos directory) while its extraction
artifact is deleted. -/
theorem remove_repository_disk_effects_witness :
    ["home", "src"] ∈
      (remove_repository ["repos"] exKGStateLocal "beta").2.fs_dirs ∧
    exEntryLocal.data_file ∉
      (remove_repository ["repos"] exKGStateLocal "beta").2.fs_files := by
  have h := remove_repository_disk_effects ["repos"] exKGStateLocal "beta"
    exEntryLocal rfl
  exact ⟨h.1 rfl ["home", "src"] (by decide), h.2.2⟩
